import Mathlib

/-!
# Fuzzy byte patcher (src/gulf.js): shallow embedding

This file embeds the core of the repository — the function
`patchLabelBytesIfNeeded` of `src/gulf.js` together with its helper
`isAlphaChar` — as executable Lean definitions over `List Nat` buffers
(one `Nat` per byte of the `Uint8Array`), and proves the behavioural
claims about it.

Modelling notes, fixed by JavaScript semantics:
* a read past the end of a `Uint8Array` yields `undefined`, and
  `isAlphaChar(undefined)` is `false`; the gap-scan `do/while` at
  lines 122-124 of the source has no bounds check, so when no
  alphabetic byte exists to the right of the scan point the loop never
  terminates.  Divergence of that loop is represented by `none`.
* a write past the end of a `Uint8Array` (or at index `-1`) is silently
  dropped; `List.set` at an out-of-range index is likewise the identity,
  and writes at negative positions are guarded explicitly.
* `Uint8Array.prototype.indexOf(v, from)` returns `-1` when `v` does not
  occur at an index `≥ from`; this is modelled with `Option Nat` and the
  `-1` sentinel is materialised where the source uses the raw result.
-/

namespace Gulf

/-- Embedding of `isAlphaChar` (src/gulf.js lines 180-182): whether a byte
is an ASCII alphabet character, `A`-`Z` (65-90) or `a`-`z` (97-122). -/
def isAlphaChar (code : Nat) : Bool :=
  (decide (64 < code) && decide (code < 91)) || (decide (96 < code) && decide (code < 123))

/-- `isAlphaChar` applied to a possibly-missing byte: reading past the end of
a `Uint8Array` yields `undefined`, and `isAlphaChar(undefined)` is `false`. -/
def isAlphaCharAt : Option Nat → Bool
  | some c => isAlphaChar c
  | none => false

/-- The bytes of the search phrase `'Gulf of Mexico'`
(`SEARCH_PATTERN_BYTES`, src/gulf.js line 96). -/
def SEARCH_PATTERN_BYTES : List Nat :=
  [71, 117, 108, 102, 32, 111, 102, 32, 77, 101, 120, 105, 99, 111]

/-- `' '.charCodeAt(0)` (src/gulf.js line 99). -/
def CHAR_CODE_SPACE : Nat := 32

/-- `'M'.charCodeAt(0)` (src/gulf.js line 100). -/
def CHAR_CODE_CAPITAL_M : Nat := 77

/-- `'('.charCodeAt(0)` (src/gulf.js line 101). -/
def CHAR_CODE_PARENTH : Nat := 40

/-- `')'.charCodeAt(0)` (src/gulf.js line 155). -/
def CHAR_CODE_CLOSE_PARENTH : Nat := 41

/-- The bytes of the replacement word `"Sweden"`
(`REPLACEMENT_BYTES`, src/gulf.js line 103). -/
def REPLACEMENT_BYTES : List Nat := [83, 119, 101, 100, 101, 110]

/-- Relative index of the first ASCII-alphabetic byte of a list, if any. -/
def firstAlphaIdx : List Nat → Option Nat
  | [] => none
  | b :: rest => if isAlphaChar b then some 0 else (firstAlphaIdx rest).map (· + 1)

/-- The gap-scan `do/while` of `patchLabelBytesIfNeeded` (src/gulf.js lines
122-124), entered with the buffer cursor already moved one step: it stops at
the first alphabetic byte at an absolute index `≥ pos`.  Reads past the
buffer end give `undefined`, which is never alphabetic, so when no in-bounds
alphabetic byte exists at an index `≥ pos` the JavaScript loop runs forever;
that divergence is the `none` case. -/
def findAlphaFrom (buf : List Nat) (pos : Nat) : Option Nat :=
  (firstAlphaIdx (buf.drop pos)).map (pos + ·)

/-- The inner matching loop of `patchLabelBytesIfNeeded` (src/gulf.js lines
108-135), for candidate start index `start`, current buffer cursor `off`
(`labelByteOffset`) and the still-unconsumed suffix of the search pattern.
`some true` is `foundMatch = true` after the loop, `some false` is a failed
candidate (bounds check at line 113 or byte mismatch at line 133), and
`none` means the gap scan at lines 122-124 diverges. -/
def matchFrom (buf : List Nat) (pat : List Nat) (start off : Nat) : Option Bool :=
  match pat with
  | [] => some true
  | p :: rest =>
    if buf.length ≤ start + off then
      some false
    else
      let labelByte := buf.getD (start + off) 0
      if p == CHAR_CODE_SPACE && !isAlphaChar labelByte then
        match findAlphaFrom buf (start + off + 1) with
        | none => none
        | some j => matchFrom buf rest start (j - start)
      else if labelByte == p then
        matchFrom buf rest start (off + 1)
      else
        some false

/-- Relative index of the first occurrence of byte `t` in a list, if any. -/
def firstIdxOf (t : Nat) : List Nat → Option Nat
  | [] => none
  | b :: rest => if b == t then some 0 else (firstIdxOf t rest).map (· + 1)

/-- `labelBytes.indexOf(t, start)` (src/gulf.js line 139): the first index
`≥ start` holding byte `t`, or `none` where JavaScript returns `-1`. -/
def indexOfFrom (buf : List Nat) (t : Nat) (start : Nat) : Option Nat :=
  (firstIdxOf t (buf.drop start)).map (start + ·)

/-- The parenthesis scan of `patchLabelBytesIfNeeded` (src/gulf.js lines
142-148): the first index holding `'('` whose immediately following byte is
alphabetic (a read at `length` yields `undefined`, which is not alphabetic).
`none` where the source leaves `parenthStartIndex` at `-1`. -/
def findParenthStart : List Nat → Option Nat
  | [] => none
  | b :: rest =>
    if b == CHAR_CODE_PARENTH && isAlphaCharAt rest.head? then some 0
    else (findParenthStart rest).map (· + 1)

/-- The erasure loop body (src/gulf.js lines 152-163) applied to the buffer
suffix that starts at `parenthStartIndex`: every byte up to and including the
first `')'` is overwritten with a space, and every byte to the end when no
`')'` occurs. -/
def eraseUpToClose : List Nat → List Nat
  | [] => []
  | b :: rest =>
    if b == CHAR_CODE_CLOSE_PARENTH then CHAR_CODE_SPACE :: rest
    else CHAR_CODE_SPACE :: eraseUpToClose rest

/-- The full erasure step (src/gulf.js lines 151-164): bytes before index `p`
are untouched, and from `p` on the buffer is rewritten by `eraseUpToClose`. -/
def eraseParenth (buf : List Nat) (p : Nat) : List Nat :=
  buf.take p ++ eraseUpToClose (buf.drop p)

/-- The replacement loop (src/gulf.js lines 166-168): writes the bytes `bs`
at consecutive positions starting at `pos`.  `pos` is an `Int` because the
source starts it at `labelBytes.indexOf(...)`, which can be `-1`; a write at
a negative index or past the buffer end is dropped, as on a `Uint8Array`. -/
def writeBytes (buf : List Nat) (pos : Int) : List Nat → List Nat
  | [] => buf
  | b :: rest =>
    writeBytes (if 0 ≤ pos then buf.set pos.toNat b else buf) (pos + 1) rest

/-- The patch application for one found match (src/gulf.js lines 137-168),
in source order: `mexicoStartIndex` is computed by `indexOf` on the buffer
*before* erasure (line 139, `-1` when absent), then the parenthetical (if
any) is erased, then `REPLACEMENT_BYTES` is written at `mexicoStartIndex`. -/
def applyPatch (buf : List Nat) (start : Nat) : List Nat :=
  let mexicoStartIndex : Int :=
    match indexOfFrom buf CHAR_CODE_CAPITAL_M start with
    | some m => (m : Int)
    | none => -1
  let erased :=
    match findParenthStart buf with
    | some p => eraseParenth buf p
    | none => buf
  writeBytes erased mexicoStartIndex REPLACEMENT_BYTES

/-- The outer candidate loop of `patchLabelBytesIfNeeded` (src/gulf.js lines
106-170), driven by explicit fuel so that the recursion is structural: each
step consumes one candidate start index `i`, patches in place when the
candidate matches, and always continues at `i + 1`.  The returned `Bool` is
`true` exactly when some candidate's gap scan diverges; the paired buffer is
then the buffer state at the moment the JavaScript loop hangs. -/
def patchLoopAux : Nat → List Nat → Nat → List Nat × Bool
  | 0, buf, _ => (buf, false)
  | fuel + 1, buf, i =>
    if i < buf.length then
      match matchFrom buf SEARCH_PATTERN_BYTES i 0 with
      | none => (buf, true)
      | some true => patchLoopAux fuel (applyPatch buf i) (i + 1)
      | some false => patchLoopAux fuel buf (i + 1)
    else
      (buf, false)

/-- Embedding of `patchLabelBytesIfNeeded` (src/gulf.js lines 94-171).
The buffer has fixed length throughout, so `buf.length` steps of fuel are
exactly the iterations of the source loop.  The result is the final (or
hang-point) buffer together with the divergence flag. -/
def patchLabelBytesIfNeeded (buf : List Nat) : List Nat × Bool :=
  patchLoopAux buf.length buf 0

/-- Number of bytes the erasure loop (src/gulf.js lines 152-163) writes when
started on the given buffer suffix: up to and including the first `')'`, or
the whole suffix when no `')'` occurs. -/
def eraseUpToCloseCount : List Nat → Nat
  | [] => 0
  | b :: rest =>
    if b == CHAR_CODE_CLOSE_PARENTH then 1 else 1 + eraseUpToCloseCount rest

/-- Instrumentation: the absolute buffer indices at which the patch
application for a match at `start` attempts a write — the erasure writes
(src/gulf.js lines 156 and 162) followed by the six replacement writes
(line 167), as `Int`s because the replacement base can be `-1`. -/
def patchWrites (buf : List Nat) (start : Nat) : List Int :=
  let mexicoStartIndex : Int :=
    match indexOfFrom buf CHAR_CODE_CAPITAL_M start with
    | some m => (m : Int)
    | none => -1
  (match findParenthStart buf with
    | some p => (List.range (eraseUpToCloseCount (buf.drop p))).map (fun j => ((p + j : Nat) : Int))
    | none => []) ++
  (List.range REPLACEMENT_BYTES.length).map (fun (j : Nat) => mexicoStartIndex + (j : Int))

/-! ### Concrete buffers used by the claims -/

/-- The bytes of `"Gulf of Mexico"`, separators being ordinary spaces. -/
def gulfOfMexicoBytes : List Nat :=
  [71, 117, 108, 102, 32, 111, 102, 32, 77, 101, 120, 105, 99, 111]

/-- The bytes of `"Gulf of Sweden"`. -/
def gulfOfSwedenBytes : List Nat :=
  [71, 117, 108, 102, 32, 111, 102, 32, 83, 119, 101, 100, 101, 110]

/-- The bytes of `"Gulf of Mexico (Gulf of America)"`. -/
def gulfOfAmericaBuffer : List Nat :=
  gulfOfMexicoBytes ++ [32, 40] ++
    [71, 117, 108, 102, 32, 111, 102, 32, 65, 109, 101, 114, 105, 99, 97] ++ [41]

/-- The bytes of `"GulfXofXMexico"`: alphabetic bytes where separators belong. -/
def gulfXofXMexicoBytes : List Nat :=
  [71, 117, 108, 102, 88, 111, 102, 88, 77, 101, 120, 105, 99, 111]

/-- The bytes of `"Gulf of Mexico (aGulf of Mexico)"`: a second fuzzy
occurrence of the phrase, disjoint from the first (which spans indices
0-13), sitting inside the parenthetical at indices 17-30. -/
def overlapParenBuffer : List Nat :=
  gulfOfMexicoBytes ++ [32, 40, 97] ++ gulfOfMexicoBytes ++ [41]

/-- The bytes of `"Gulf of Mexico (aGulf\x01of\x02Mexico)"`: a second fuzzy
occurrence with non-space separator runs, inside the parenthetical at
indices 17-30. -/
def overlapParenFuzzyBuffer : List Nat :=
  gulfOfMexicoBytes ++ [32, 40, 97] ++
    [71, 117, 108, 102, 1, 111, 102, 2, 77, 101, 120, 105, 99, 111] ++ [41]

/-- The bytes of `"Gulf(x)of Mexico Gulf of Mexico"`: patching the match at
index 17 erases `(x)`, which creates a brand-new fuzzy match at index 0. -/
def idempotenceBreakBuffer : List Nat :=
  [71, 117, 108, 102, 40, 120, 41, 111, 102, 32, 77, 101, 120, 105, 99, 111, 32] ++
    gulfOfMexicoBytes

/-- The bytes of `"Gulf of Mexico,Gulf of Mexico"`: two disjoint fuzzy
matches, at indices 0 and 15, with no parenthetical anywhere. -/
def twoMatchBuffer : List Nat := gulfOfMexicoBytes ++ [44] ++ gulfOfMexicoBytes

/-! ### Basic list lemmas -/

theorem getD_drop (p : Nat) : ∀ (l : List Nat) (t : Nat), (l.drop p).getD t 0 = l.getD (p + t) 0 := by
  induction p with
  | zero => intro l t; simp
  | succ p ih =>
    intro l t
    cases l with
    | nil => simp
    | cons a l =>
      have : p + 1 + t = (p + t) + 1 := by omega
      rw [this, List.drop_succ_cons, List.getD_cons_succ, ih]

theorem drop_append_len : ∀ (l1 l2 : List Nat) (k : Nat), (l1 ++ l2).drop (l1.length + k) = l2.drop k := by
  intro l1
  induction l1 with
  | nil => intro l2 k; simp
  | cons a l1 ih =>
    intro l2 k
    have : (a :: l1).length + k = (l1.length + k) + 1 := by simp; omega
    rw [this, List.cons_append, List.drop_succ_cons, ih]

theorem getD_append_len (l1 l2 : List Nat) (k : Nat) : (l1 ++ l2).getD (l1.length + k) 0 = l2.getD k 0 := by
  rw [← getD_drop l1.length (l1 ++ l2) k]
  have h2 : (l1 ++ l2).drop l1.length = l2 := by
    have h := drop_append_len l1 l2 0
    rw [Nat.add_zero, List.drop_zero] at h
    exact h
  rw [h2]

theorem getD_set_eq : ∀ (l : List Nat) (i a : Nat), i < l.length → (l.set i a).getD i 0 = a := by
  intro l
  induction l with
  | nil => intro i a h; simp at h
  | cons b l ih =>
    intro i a h
    cases i with
    | zero => rfl
    | succ i => exact ih i a (by simp only [List.length_cons] at h; omega)

theorem getD_set_ne : ∀ (l : List Nat) (i j a : Nat), i ≠ j → (l.set i a).getD j 0 = l.getD j 0 := by
  intro l
  induction l with
  | nil => intro i j a _; simp
  | cons b l ih =>
    intro i j a hij
    cases i with
    | zero =>
      cases j with
      | zero => exact absurd rfl hij
      | succ j => rfl
    | succ i =>
      cases j with
      | zero => rfl
      | succ j => exact ih i j a (by omega)

/-! ### Length preservation -/

theorem eraseUpToClose_length : ∀ (l : List Nat), (eraseUpToClose l).length = l.length := by
  intro l
  induction l with
  | nil => rfl
  | cons b l ih =>
    by_cases hb : (b == CHAR_CODE_CLOSE_PARENTH) = true
    · simp [eraseUpToClose, hb]
    · simp only [eraseUpToClose, Bool.not_eq_true] at hb ⊢
      rw [hb]
      simp [ih]

theorem eraseParenth_length (buf : List Nat) (p : Nat) : (eraseParenth buf p).length = buf.length := by
  simp [eraseParenth, eraseUpToClose_length]
  omega

theorem writeBytes_length : ∀ (bs buf : List Nat) (pos : Int), (writeBytes buf pos bs).length = buf.length := by
  intro bs
  induction bs with
  | nil => intro buf pos; rfl
  | cons b bs ih =>
    intro buf pos
    rw [writeBytes, ih]
    by_cases h : (0 : Int) ≤ pos <;> simp [h]

theorem applyPatch_length (buf : List Nat) (start : Nat) : (applyPatch buf start).length = buf.length := by
  rw [applyPatch, writeBytes_length]
  cases findParenthStart buf with
  | none => rfl
  | some p => exact eraseParenth_length buf p

theorem patchLoopAux_fst_length : ∀ (fuel : Nat) (buf : List Nat) (i : Nat),
    ((patchLoopAux fuel buf i).fst).length = buf.length := by
  intro fuel
  induction fuel with
  | zero => intro buf i; rfl
  | succ fuel ih =>
    intro buf i
    rw [patchLoopAux]
    by_cases h : i < buf.length
    · rw [if_pos h]
      cases matchFrom buf SEARCH_PATTERN_BYTES i 0 with
      | none => rfl
      | some b =>
        cases b with
        | true => rw [ih (applyPatch buf i) (i + 1), applyPatch_length]
        | false => exact ih buf (i + 1)
    · rw [if_neg h]

/-! ### The gap scan -/

theorem firstAlphaIdx_some : ∀ (l : List Nat) (k : Nat), firstAlphaIdx l = some k →
    k < l.length ∧ isAlphaChar (l.getD k 0) = true ∧
      ∀ j, j < k → isAlphaChar (l.getD j 0) = false := by
  intro l
  induction l with
  | nil => intro k h; exact absurd h (by simp [firstAlphaIdx])
  | cons b l ih =>
    intro k h
    by_cases hb : isAlphaChar b = true
    · rw [firstAlphaIdx, if_pos hb, Option.some.injEq] at h
      subst h
      exact ⟨by simp, by simpa using hb, fun j hj => absurd hj (by omega)⟩
    · rw [firstAlphaIdx, if_neg hb] at h
      cases hk : firstAlphaIdx l with
      | none => rw [hk] at h; simp at h
      | some k' =>
        rw [hk] at h
        simp at h
        subst h
        obtain ⟨h1, h2, h3⟩ := ih k' hk
        refine ⟨by simpa using h1, by simpa using h2, ?_⟩
        intro j hj
        cases j with
        | zero => simpa using (Bool.not_eq_true _).mp hb
        | succ j => simpa using h3 j (by omega)

theorem firstAlphaIdx_append_nonalpha : ∀ (xs : List Nat) (c : Nat) (rest : List Nat),
    (∀ b ∈ xs, isAlphaChar b = false) → isAlphaChar c = true →
    firstAlphaIdx (xs ++ c :: rest) = some xs.length := by
  intro xs
  induction xs with
  | nil => intro c rest _ hc; simp [firstAlphaIdx, hc]
  | cons b xs ih =>
    intro c rest hx hc
    have hb : isAlphaChar b = false := hx b (by simp)
    rw [List.cons_append, firstAlphaIdx, if_neg (by simp [hb]),
      ih c rest (fun b hb => hx b (by simp [hb])) hc]
    simp

theorem findAlphaFrom_some (buf : List Nat) (p j : Nat) (h : findAlphaFrom buf p = some j) :
    p ≤ j ∧ j < buf.length ∧ isAlphaChar (buf.getD j 0) = true ∧
      ∀ k, p ≤ k → k < j → isAlphaChar (buf.getD k 0) = false := by
  rw [findAlphaFrom] at h
  cases hk : firstAlphaIdx (buf.drop p) with
  | none => rw [hk] at h; simp at h
  | some t =>
    rw [hk] at h
    simp at h
    obtain ⟨h1, h2, h3⟩ := firstAlphaIdx_some (buf.drop p) t hk
    rw [List.length_drop] at h1
    rw [getD_drop] at h2
    subst h
    refine ⟨by omega, by omega, h2, ?_⟩
    intro k hk1 hk2
    have := h3 (k - p) (by omega)
    rw [getD_drop] at this
    have hpk : p + (k - p) = k := by omega
    rwa [hpk] at this

end Gulf

namespace Gulf

/-! ### Stepping the inner matching loop -/

theorem matchFrom_oob (buf rest : List Nat) (p s o : Nat) (h : buf.length ≤ s + o) :
    matchFrom buf (p :: rest) s o = some false := by
  rw [matchFrom, if_pos h]

theorem matchFrom_lit_step (buf rest : List Nat) (p s o : Nat) (hp : p ≠ 32)
    (hlen : s + o < buf.length) (hb : buf.getD (s + o) 0 = p) :
    matchFrom buf (p :: rest) s o = matchFrom buf rest s (o + 1) := by
  have hp32 : (p == CHAR_CODE_SPACE) = false := by
    simp [CHAR_CODE_SPACE]; exact hp
  rw [matchFrom, if_neg (by omega)]
  simp only [hb, hp32, Bool.false_and, Bool.false_eq_true, if_false, beq_self_eq_true, if_true]

theorem matchFrom_lit_fail (buf rest : List Nat) (p s o : Nat) (hp : p ≠ 32)
    (hlen : s + o < buf.length) (hb : buf.getD (s + o) 0 ≠ p) :
    matchFrom buf (p :: rest) s o = some false := by
  have hp32 : (p == CHAR_CODE_SPACE) = false := by
    simp [CHAR_CODE_SPACE]; exact hp
  have hbp : (buf.getD (s + o) 0 == p) = false := by
    simp only [beq_eq_false_iff_ne, ne_eq]
    exact hb
  rw [matchFrom, if_neg (by omega)]
  simp only [hp32, Bool.false_and, Bool.false_eq_true, if_false, hbp]

theorem matchFrom_gap_step (buf rest : List Nat) (s o : Nat)
    (hlen : s + o < buf.length) (hb : isAlphaChar (buf.getD (s + o) 0) = false) :
    matchFrom buf (32 :: rest) s o =
      match findAlphaFrom buf (s + o + 1) with
      | none => none
      | some j => matchFrom buf rest s (j - s) := by
  rw [matchFrom, if_neg (by omega)]
  simp only [CHAR_CODE_SPACE, beq_self_eq_true, hb, Bool.not_false, Bool.and_self, if_true]

theorem matchFrom_gap_alpha (buf rest : List Nat) (s o : Nat)
    (hlen : s + o < buf.length) (hb : isAlphaChar (buf.getD (s + o) 0) = true) :
    matchFrom buf (32 :: rest) s o = some false := by
  have hb32 : (buf.getD (s + o) 0 == 32) = false := by
    simp only [beq_eq_false_iff_ne, ne_eq]
    intro e
    rw [e] at hb
    exact absurd hb (by decide)
  rw [matchFrom, if_neg (by omega)]
  simp only [CHAR_CODE_SPACE, beq_self_eq_true, hb, Bool.not_true, Bool.and_false,
    Bool.false_eq_true, if_false, hb32]

theorem matchFrom_lit_elim (buf rest : List Nat) (p s o : Nat) (hp : p ≠ 32)
    (h : matchFrom buf (p :: rest) s o = some true) :
    s + o < buf.length ∧ buf.getD (s + o) 0 = p ∧ matchFrom buf rest s (o + 1) = some true := by
  by_cases hlen : s + o < buf.length
  · by_cases hb : buf.getD (s + o) 0 = p
    · rw [matchFrom_lit_step buf rest p s o hp hlen hb] at h
      exact ⟨hlen, hb, h⟩
    · rw [matchFrom_lit_fail buf rest p s o hp hlen hb] at h
      simp at h
  · rw [matchFrom_oob buf rest p s o (by omega)] at h
    simp at h

theorem matchFrom_gap_elim (buf rest : List Nat) (s o : Nat)
    (h : matchFrom buf (32 :: rest) s o = some true) :
    s + o < buf.length ∧ isAlphaChar (buf.getD (s + o) 0) = false ∧
      ∃ j, findAlphaFrom buf (s + o + 1) = some j ∧ matchFrom buf rest s (j - s) = some true := by
  by_cases hlen : s + o < buf.length
  · by_cases hb : isAlphaChar (buf.getD (s + o) 0) = true
    · rw [matchFrom_gap_alpha buf rest s o hlen hb] at h
      simp at h
    · rw [Bool.not_eq_true] at hb
      rw [matchFrom_gap_step buf rest s o hlen hb] at h
      cases hfa : findAlphaFrom buf (s + o + 1) with
      | none => rw [hfa] at h; simp at h
      | some j =>
        rw [hfa] at h
        exact ⟨hlen, hb, j, rfl, h⟩
  · rw [matchFrom_oob buf rest 32 s o (by omega)] at h
    simp at h

end Gulf

namespace Gulf

/-! ### Decomposition of a successful match -/

/-- A candidate that the inner loop accepts decomposes exactly as the
pattern dictates: the literal bytes `G`, `u`, `l`, `f` at `i`..`i+3`, a
non-empty run of non-alphabetic bytes, `o`, `f` at `u`, `u+1`, another
non-empty run of non-alphabetic bytes, and the literal bytes of `Mexico`
at `v`..`v+5`, all inside the buffer. -/
theorem match_decomp (buf : List Nat) (i : Nat)
    (h : matchFrom buf SEARCH_PATTERN_BYTES i 0 = some true) :
    ∃ u v, i + 5 ≤ u ∧ u + 3 ≤ v ∧ v + 5 < buf.length ∧
      buf.getD i 0 = 71 ∧ buf.getD (i + 1) 0 = 117 ∧
      buf.getD (i + 2) 0 = 108 ∧ buf.getD (i + 3) 0 = 102 ∧
      (∀ k, i + 4 ≤ k → k < u → isAlphaChar (buf.getD k 0) = false) ∧
      buf.getD u 0 = 111 ∧ buf.getD (u + 1) 0 = 102 ∧
      (∀ k, u + 2 ≤ k → k < v → isAlphaChar (buf.getD k 0) = false) ∧
      buf.getD v 0 = 77 ∧ buf.getD (v + 1) 0 = 101 ∧ buf.getD (v + 2) 0 = 120 ∧
      buf.getD (v + 3) 0 = 105 ∧ buf.getD (v + 4) 0 = 99 ∧ buf.getD (v + 5) 0 = 111 := by
  rw [SEARCH_PATTERN_BYTES] at h
  obtain ⟨hl0, hb0, h⟩ := matchFrom_lit_elim buf _ 71 i 0 (by decide) h
  rw [Nat.add_zero] at hb0
  obtain ⟨hl1, hb1, h⟩ := matchFrom_lit_elim buf _ 117 i 1 (by decide) h
  obtain ⟨hl2, hb2, h⟩ := matchFrom_lit_elim buf _ 108 i 2 (by decide) h
  obtain ⟨hl3, hb3, h⟩ := matchFrom_lit_elim buf _ 102 i 3 (by decide) h
  obtain ⟨hl4, hna4, j1, hfa1, h⟩ := matchFrom_gap_elim buf _ i 4 h
  obtain ⟨hj1a, hj1b, hj1c, hj1d⟩ := findAlphaFrom_some buf (i + 4 + 1) j1 hfa1
  obtain ⟨hl5, hb5, h⟩ := matchFrom_lit_elim buf _ 111 i (j1 - i) (by decide) h
  have e5 : i + (j1 - i) = j1 := by omega
  rw [e5] at hl5 hb5
  obtain ⟨hl6, hb6, h⟩ := matchFrom_lit_elim buf _ 102 i (j1 - i + 1) (by decide) h
  have e6 : i + (j1 - i + 1) = j1 + 1 := by omega
  rw [e6] at hl6 hb6
  obtain ⟨hl7, hna7, j2, hfa2, h⟩ := matchFrom_gap_elim buf _ i (j1 - i + 2) h
  have e7 : i + (j1 - i + 2) = j1 + 2 := by omega
  rw [e7] at hl7 hna7
  have e7p : i + (j1 - i + 2) + 1 = j1 + 3 := by omega
  rw [e7p] at hfa2
  obtain ⟨hj2a, hj2b, hj2c, hj2d⟩ := findAlphaFrom_some buf (j1 + 3) j2 hfa2
  obtain ⟨hl8, hb8, h⟩ := matchFrom_lit_elim buf _ 77 i (j2 - i) (by decide) h
  have e8 : i + (j2 - i) = j2 := by omega
  rw [e8] at hl8 hb8
  obtain ⟨hl9, hb9, h⟩ := matchFrom_lit_elim buf _ 101 i (j2 - i + 1) (by decide) h
  have e9 : i + (j2 - i + 1) = j2 + 1 := by omega
  rw [e9] at hl9 hb9
  obtain ⟨hl10, hb10, h⟩ := matchFrom_lit_elim buf _ 120 i (j2 - i + 2) (by decide) h
  have e10 : i + (j2 - i + 2) = j2 + 2 := by omega
  rw [e10] at hl10 hb10
  obtain ⟨hl11, hb11, h⟩ := matchFrom_lit_elim buf _ 105 i (j2 - i + 3) (by decide) h
  have e11 : i + (j2 - i + 3) = j2 + 3 := by omega
  rw [e11] at hl11 hb11
  obtain ⟨hl12, hb12, h⟩ := matchFrom_lit_elim buf _ 99 i (j2 - i + 4) (by decide) h
  have e12 : i + (j2 - i + 4) = j2 + 4 := by omega
  rw [e12] at hl12 hb12
  obtain ⟨hl13, hb13, -⟩ := matchFrom_lit_elim buf _ 111 i (j2 - i + 5) (by decide) h
  have e13 : i + (j2 - i + 5) = j2 + 5 := by omega
  rw [e13] at hl13 hb13
  refine ⟨j1, j2, by omega, by omega, by omega, hb0, hb1, hb2, hb3, ?_, hb5, hb6, ?_,
    hb8, hb9, hb10, hb11, hb12, hb13⟩
  · intro k hk1 hk2
    by_cases hk : k = i + 4
    · rw [hk]; exact hna4
    · exact hj1d k (by omega) hk2
  · intro k hk1 hk2
    by_cases hk : k = j1 + 2
    · rw [hk]; exact hna7
    · exact hj2d k (by omega) hk2

/-! ### The anchor-byte search -/

theorem firstIdxOf_some : ∀ (l : List Nat) (t k : Nat), firstIdxOf t l = some k →
    k < l.length ∧ l.getD k 0 = t ∧ ∀ j, j < k → l.getD j 0 ≠ t := by
  intro l
  induction l with
  | nil => intro t k h; exact absurd h (by simp [firstIdxOf])
  | cons b l ih =>
    intro t k h
    by_cases hb : (b == t) = true
    · rw [firstIdxOf, if_pos hb, Option.some.injEq] at h
      subst h
      exact ⟨by simp, by simpa using hb, fun j hj => absurd hj (by omega)⟩
    · rw [firstIdxOf, if_neg hb] at h
      cases hk : firstIdxOf t l with
      | none => rw [hk] at h; simp at h
      | some k' =>
        rw [hk] at h
        simp at h
        subst h
        obtain ⟨h1, h2, h3⟩ := ih t k' hk
        refine ⟨by simpa using h1, by simpa using h2, ?_⟩
        intro j hj
        cases j with
        | zero =>
          simp only [List.getD_cons_zero]
          simpa using hb
        | succ j => simpa using h3 j (by omega)

theorem firstIdxOf_intro : ∀ (l : List Nat) (t k : Nat), k < l.length → l.getD k 0 = t →
    (∀ j, j < k → l.getD j 0 ≠ t) → firstIdxOf t l = some k := by
  intro l
  induction l with
  | nil => intro t k h; simp at h
  | cons b l ih =>
    intro t k h1 h2 h3
    cases k with
    | zero =>
      simp only [List.getD_cons_zero] at h2
      rw [firstIdxOf, if_pos (by simpa using h2)]
    | succ k =>
      have hb : (b == t) = false := by
        simpa using h3 0 (by omega)
      rw [firstIdxOf, if_neg (by simp [hb]),
        ih t k (by simpa using h1) (by simpa using h2)
          (fun j hj => by simpa using h3 (j + 1) (by omega))]
      simp

theorem indexOfFrom_some (buf : List Nat) (t s v : Nat) (h : indexOfFrom buf t s = some v) :
    s ≤ v ∧ v < buf.length ∧ buf.getD v 0 = t ∧
      ∀ k, s ≤ k → k < v → buf.getD k 0 ≠ t := by
  rw [indexOfFrom] at h
  cases hk : firstIdxOf t (buf.drop s) with
  | none => rw [hk] at h; simp at h
  | some k =>
    rw [hk] at h
    simp at h
    obtain ⟨h1, h2, h3⟩ := firstIdxOf_some (buf.drop s) t k hk
    rw [List.length_drop] at h1
    rw [getD_drop] at h2
    subst h
    refine ⟨by omega, by omega, h2, ?_⟩
    intro j hj1 hj2
    have := h3 (j - s) (by omega)
    rw [getD_drop] at this
    have hsj : s + (j - s) = j := by omega
    rwa [hsj] at this

theorem indexOfFrom_intro (buf : List Nat) (t s v : Nat) (h1 : s ≤ v) (h2 : v < buf.length)
    (h3 : buf.getD v 0 = t) (h4 : ∀ k, s ≤ k → k < v → buf.getD k 0 ≠ t) :
    indexOfFrom buf t s = some v := by
  rw [indexOfFrom, firstIdxOf_intro (buf.drop s) t (v - s)
    (by rw [List.length_drop]; omega)
    (by rw [getD_drop, Nat.add_sub_cancel' h1]; exact h3)
    (fun j hj => by
      rw [getD_drop]
      exact h4 (s + j) (by omega) (by omega))]
  simp
  omega

/-- Shared consequence of `match_decomp`: once the inner loop accepts the
candidate at `i`, the anchor search `labelBytes.indexOf('M', i)` finds the
`M` of the matched token itself — the six bytes of `"Mexico"` sit at the
found position, wholly inside the buffer. -/
theorem anchor_of_match (buf : List Nat) (i : Nat)
    (h : matchFrom buf SEARCH_PATTERN_BYTES i 0 = some true) :
    ∃ v, indexOfFrom buf CHAR_CODE_CAPITAL_M i = some v ∧ i ≤ v ∧ v + 6 ≤ buf.length ∧
      buf.getD v 0 = 77 ∧ buf.getD (v + 1) 0 = 101 ∧ buf.getD (v + 2) 0 = 120 ∧
      buf.getD (v + 3) 0 = 105 ∧ buf.getD (v + 4) 0 = 99 ∧ buf.getD (v + 5) 0 = 111 := by
  obtain ⟨u, v, h1, h2, h3, hb0, hb1, hb2, hb3, hna1, hbu, hbu1, hna2,
    hv0, hv1, hv2, hv3, hv4, hv5⟩ := match_decomp buf i h
  refine ⟨v, ?_, by omega, by omega, hv0, hv1, hv2, hv3, hv4, hv5⟩
  apply indexOfFrom_intro buf CHAR_CODE_CAPITAL_M i v (by omega) (by omega)
    (by rw [CHAR_CODE_CAPITAL_M]; exact hv0)
  intro k hk1 hk2
  rw [CHAR_CODE_CAPITAL_M]
  by_cases hc1 : k < i + 4
  · have : k = i ∨ k = i + 1 ∨ k = i + 2 ∨ k = i + 3 := by omega
    rcases this with e | e | e | e <;> rw [e]
    · rw [hb0]; decide
    · rw [hb1]; decide
    · rw [hb2]; decide
    · rw [hb3]; decide
  · by_cases hc2 : k < u
    · intro e
      have hna := hna1 k (by omega) hc2
      rw [e] at hna
      exact absurd hna (by decide)
    · by_cases hc3 : k = u
      · rw [hc3, hbu]; decide
      · by_cases hc4 : k = u + 1
        · rw [hc4, hbu1]; decide
        · intro e
          have hna := hna2 k (by omega) hk2
          rw [e] at hna
          exact absurd hna (by decide)

end Gulf

namespace Gulf

/-! ### The replacement write loop -/

theorem writeBytes_getD_lt : ∀ (bs buf : List Nat) (pos : Int) (k : Nat), (k : Int) < pos →
    (writeBytes buf pos bs).getD k 0 = buf.getD k 0 := by
  intro bs
  induction bs with
  | nil => intro buf pos k _; rfl
  | cons b bs ih =>
    intro buf pos k hk
    rw [writeBytes, ih _ _ k (by omega)]
    by_cases h0 : (0 : Int) ≤ pos
    · rw [if_pos h0]
      exact getD_set_ne buf pos.toNat k b (by omega)
    · rw [if_neg h0]

theorem writeBytes_getD_in : ∀ (bs buf : List Nat) (m j : Nat), j < bs.length →
    m + bs.length ≤ buf.length →
    (writeBytes buf (m : Int) bs).getD (m + j) 0 = bs.getD j 0 := by
  intro bs
  induction bs with
  | nil => intro buf m j hj _; simp at hj
  | cons b bs ih =>
    intro buf m j hj hlen
    rw [List.length_cons] at hlen
    rw [writeBytes, if_pos (by omega)]
    cases j with
    | zero =>
      rw [Nat.add_zero, List.getD_cons_zero]
      rw [writeBytes_getD_lt bs _ ((m : Int) + 1) m (by omega)]
      have ht : ((m : Int)).toNat = m := rfl
      rw [ht]
      exact getD_set_eq buf m b (by omega)
    | succ j =>
      have harr : m + (j + 1) = (m + 1) + j := by omega
      rw [harr, List.getD_cons_succ]
      have hcast : (m : Int) + 1 = ((m + 1 : Nat) : Int) := by push_cast; ring
      rw [hcast]
      apply ih
      · simpa using hj
      · rw [List.length_set]
        omega

/-! ### The parenthesis scan and the erasure loop -/

theorem get?_zero_eq_head? : ∀ (l : List Nat), l.get? 0 = l.head? := by
  intro l; cases l <;> rfl

theorem findParenthStart_some : ∀ (l : List Nat) (p : Nat), findParenthStart l = some p →
    p < l.length ∧ l.getD p 0 = 40 ∧ isAlphaCharAt (l.get? (p + 1)) = true ∧
      ∀ k, k < p → ¬(l.getD k 0 = 40 ∧ isAlphaCharAt (l.get? (k + 1)) = true) := by
  intro l
  induction l with
  | nil => intro p h; exact absurd h (by simp [findParenthStart])
  | cons b rest ih =>
    intro p h
    by_cases hc : (b == CHAR_CODE_PARENTH && isAlphaCharAt rest.head?) = true
    · rw [findParenthStart, if_pos hc, Option.some.injEq] at h
      subst h
      simp only [Bool.and_eq_true, beq_iff_eq, CHAR_CODE_PARENTH] at hc
      refine ⟨by simp, by simpa using hc.1, ?_, fun k hk => absurd hk (by omega)⟩
      rw [show (b :: rest).get? (0 + 1) = rest.get? 0 from rfl, get?_zero_eq_head?]
      exact hc.2
    · rw [findParenthStart, if_neg hc] at h
      cases hp : findParenthStart rest with
      | none => rw [hp] at h; simp at h
      | some q =>
        rw [hp] at h
        simp at h
        subst h
        obtain ⟨h1, h2, h3, h4⟩ := ih q hp
        refine ⟨by simpa using h1, by simpa using h2, ?_, ?_⟩
        · rw [show (b :: rest).get? (q + 1 + 1) = rest.get? (q + 1) from rfl]
          exact h3
        · intro k hk
          cases k with
          | zero =>
            rintro ⟨e1, e2⟩
            apply hc
            simp only [List.getD_cons_zero] at e1
            rw [show (b :: rest).get? (0 + 1) = rest.get? 0 from rfl, get?_zero_eq_head?] at e2
            simp [CHAR_CODE_PARENTH, e1, e2]
          | succ k =>
            rintro ⟨e1, e2⟩
            refine h4 k (by omega) ⟨by simpa using e1, ?_⟩
            rw [show rest.get? (k + 1) = (b :: rest).get? (k + 1 + 1) from rfl]
            exact e2

theorem findParenthStart_none : ∀ (l : List Nat), findParenthStart l = none →
    ∀ k, k < l.length → ¬(l.getD k 0 = 40 ∧ isAlphaCharAt (l.get? (k + 1)) = true) := by
  intro l
  induction l with
  | nil => intro _ k hk; simp at hk
  | cons b rest ih =>
    intro h k hk
    by_cases hc : (b == CHAR_CODE_PARENTH && isAlphaCharAt rest.head?) = true
    · rw [findParenthStart, if_pos hc] at h; simp at h
    · rw [findParenthStart, if_neg hc] at h
      have hrest : findParenthStart rest = none := by
        cases hp : findParenthStart rest with
        | none => rfl
        | some q => rw [hp] at h; simp at h
      cases k with
      | zero =>
        rintro ⟨e1, e2⟩
        apply hc
        simp only [List.getD_cons_zero] at e1
        rw [show (b :: rest).get? (0 + 1) = rest.get? 0 from rfl, get?_zero_eq_head?] at e2
        simp [CHAR_CODE_PARENTH, e1, e2]
      | succ k =>
        rintro ⟨e1, e2⟩
        refine ih hrest k (by simpa using hk) ⟨by simpa using e1, ?_⟩
        rw [show rest.get? (k + 1) = (b :: rest).get? (k + 1 + 1) from rfl]
        exact e2

theorem eraseUpToClose_getD : ∀ (xs : List Nat) (k : Nat), k < xs.length →
    (∀ j, j < k → xs.getD j 0 ≠ 41) → (eraseUpToClose xs).getD k 0 = 32 := by
  intro xs
  induction xs with
  | nil => intro k hk _; simp at hk
  | cons b rest ih =>
    intro k hk hno
    by_cases hb : (b == CHAR_CODE_CLOSE_PARENTH) = true
    · cases k with
      | zero => rw [eraseUpToClose, if_pos hb]; rfl
      | succ k =>
        exact absurd (by simpa [CHAR_CODE_CLOSE_PARENTH] using hb) (hno 0 (by omega))
    · rw [eraseUpToClose, if_neg hb]
      cases k with
      | zero => rfl
      | succ k =>
        rw [List.getD_cons_succ]
        exact ih k (by simpa using hk) (fun j hj => by simpa using hno (j + 1) (by omega))

theorem eraseParenth_getD (buf : List Nat) (p k : Nat) (hp : p ≤ k) (hk : k < buf.length)
    (hno : ∀ j, p ≤ j → j < k → buf.getD j 0 ≠ 41) :
    (eraseParenth buf p).getD k 0 = 32 := by
  rw [eraseParenth]
  have hlt : (buf.take p).length = p := by simp; omega
  have hsplit : k = (buf.take p).length + (k - p) := by omega
  rw [hsplit, getD_append_len]
  apply eraseUpToClose_getD
  · rw [List.length_drop]; omega
  · intro j hj
    rw [getD_drop]
    exact hno (p + j) (by omega) (by omega)

theorem eraseUpToCloseCount_le : ∀ (xs : List Nat), eraseUpToCloseCount xs ≤ xs.length := by
  intro xs
  induction xs with
  | nil => simp [eraseUpToCloseCount]
  | cons b rest ih =>
    rw [eraseUpToCloseCount]
    by_cases hb : (b == CHAR_CODE_CLOSE_PARENTH) = true
    · rw [if_pos hb]; simp
    · rw [if_neg hb, List.length_cons]; omega

/-! ### The outer candidate loop -/

theorem patchLoopAux_ge (fuel : Nat) (buf : List Nat) (i : Nat) (h : buf.length ≤ i) :
    patchLoopAux fuel buf i = (buf, false) := by
  cases fuel with
  | zero => rfl
  | succ fuel => rw [patchLoopAux, if_neg (by omega)]

theorem patchLoopAux_succ (fuel : Nat) (buf : List Nat) (i : Nat) (hi : i < buf.length) :
    patchLoopAux (fuel + 1) buf i =
      match matchFrom buf SEARCH_PATTERN_BYTES i 0 with
      | none => (buf, true)
      | some true => patchLoopAux fuel (applyPatch buf i) (i + 1)
      | some false => patchLoopAux fuel buf (i + 1) := by
  rw [patchLoopAux, if_pos hi]

theorem patchLoopAux_step_false (fuel : Nat) (buf : List Nat) (i : Nat) (hi : i < buf.length)
    (hm : matchFrom buf SEARCH_PATTERN_BYTES i 0 = some false) :
    patchLoopAux (fuel + 1) buf i = patchLoopAux fuel buf (i + 1) := by
  rw [patchLoopAux_succ fuel buf i hi, hm]

theorem patchLoopAux_step_true (fuel : Nat) (buf : List Nat) (i : Nat) (hi : i < buf.length)
    (hm : matchFrom buf SEARCH_PATTERN_BYTES i 0 = some true) :
    patchLoopAux (fuel + 1) buf i = patchLoopAux fuel (applyPatch buf i) (i + 1) := by
  rw [patchLoopAux_succ fuel buf i hi, hm]

theorem patchLoopAux_congr : ∀ (f1 f2 : Nat) (buf : List Nat) (i : Nat),
    buf.length - i ≤ f1 → buf.length - i ≤ f2 →
    patchLoopAux f1 buf i = patchLoopAux f2 buf i := by
  intro f1
  induction f1 with
  | zero =>
    intro f2 buf i h1 h2
    rw [patchLoopAux_ge 0 buf i (by omega), patchLoopAux_ge f2 buf i (by omega)]
  | succ f1 ih =>
    intro f2 buf i h1 h2
    by_cases hi : i < buf.length
    · cases f2 with
      | zero => omega
      | succ f2 =>
        rw [patchLoopAux_succ f1 buf i hi, patchLoopAux_succ f2 buf i hi]
        cases hm : matchFrom buf SEARCH_PATTERN_BYTES i 0 with
        | none => rfl
        | some b =>
          cases b with
          | true =>
            show patchLoopAux f1 (applyPatch buf i) (i + 1) = patchLoopAux f2 (applyPatch buf i) (i + 1)
            apply ih <;> rw [applyPatch_length] <;> omega
          | false =>
            show patchLoopAux f1 buf (i + 1) = patchLoopAux f2 buf (i + 1)
            apply ih <;> omega
    · rw [patchLoopAux_ge _ _ _ (by omega), patchLoopAux_ge _ _ _ (by omega)]

theorem patchLoopAux_noMatchTail : ∀ (fuel : Nat) (buf : List Nat) (i : Nat),
    (∀ k, k < buf.length → i ≤ k → matchFrom buf SEARCH_PATTERN_BYTES k 0 = some false) →
    patchLoopAux fuel buf i = (buf, false) := by
  intro fuel
  induction fuel with
  | zero => intro buf i _; rfl
  | succ fuel ih =>
    intro buf i hno
    by_cases hi : i < buf.length
    · rw [patchLoopAux_step_false fuel buf i hi (hno i hi (by omega))]
      exact ih buf (i + 1) (fun k hk1 hk2 => hno k hk1 (by omega))
    · exact patchLoopAux_ge _ _ _ (by omega)

theorem patchLoopAux_skip : ∀ (d fuel : Nat) (buf : List Nat) (i : Nat),
    buf.length - i ≤ fuel → i + d ≤ buf.length →
    (∀ k, k < i + d → i ≤ k → matchFrom buf SEARCH_PATTERN_BYTES k 0 = some false) →
    patchLoopAux fuel buf i = patchLoopAux (buf.length - (i + d)) buf (i + d) := by
  intro d
  induction d with
  | zero =>
    intro fuel buf i h1 h2 h3
    rw [Nat.add_zero]
    exact patchLoopAux_congr fuel (buf.length - i) buf i h1 (by omega)
  | succ d ih =>
    intro fuel buf i h1 h2 h3
    have hi : i < buf.length := by omega
    cases fuel with
    | zero => omega
    | succ fuel =>
      rw [patchLoopAux_step_false fuel buf i hi (h3 i (by omega) (by omega))]
      have hrec := ih fuel buf (i + 1) (by omega) (by omega)
        (fun k hk1 hk2 => h3 k (by omega) (by omega))
      rw [hrec]
      have e : i + 1 + d = i + (d + 1) := by omega
      rw [e]

end Gulf

namespace Gulf

/-! ### Shifting a match past a prefix -/

theorem findAlphaFrom_append_shift (pre l : List Nat) (q : Nat) :
    findAlphaFrom (pre ++ l) (pre.length + q) = (findAlphaFrom l q).map (pre.length + ·) := by
  rw [findAlphaFrom, findAlphaFrom, drop_append_len]
  cases firstAlphaIdx (l.drop q) with
  | none => rfl
  | some t => simp; omega

theorem matchFrom_append_shift : ∀ (pat pre l : List Nat) (s o : Nat),
    matchFrom (pre ++ l) pat (pre.length + s) o = matchFrom l pat s o := by
  intro pat
  induction pat with
  | nil => intro pre l s o; rfl
  | cons p rest ih =>
    intro pre l s o
    by_cases hlen : l.length ≤ s + o
    · rw [matchFrom_oob l rest p s o hlen,
        matchFrom_oob (pre ++ l) rest p (pre.length + s) o (by simp; omega)]
    · push_neg at hlen
      have hgd : (pre ++ l).getD (pre.length + s + o) 0 = l.getD (s + o) 0 := by
        have h := getD_append_len pre l (s + o)
        rw [← Nat.add_assoc] at h
        exact h
      have hlen2 : pre.length + s + o < (pre ++ l).length := by simp; omega
      by_cases hp : p = 32
      · subst hp
        by_cases ha : isAlphaChar (l.getD (s + o) 0) = true
        · rw [matchFrom_gap_alpha l rest s o hlen ha,
            matchFrom_gap_alpha (pre ++ l) rest (pre.length + s) o hlen2 (by rw [hgd]; exact ha)]
        · rw [Bool.not_eq_true] at ha
          rw [matchFrom_gap_step l rest s o hlen ha,
            matchFrom_gap_step (pre ++ l) rest (pre.length + s) o hlen2 (by rw [hgd]; exact ha)]
          have hsh : pre.length + s + o + 1 = pre.length + (s + o + 1) := by omega
          rw [hsh, findAlphaFrom_append_shift pre l (s + o + 1)]
          cases hfa : findAlphaFrom l (s + o + 1) with
          | none => rfl
          | some j =>
            show matchFrom (pre ++ l) rest (pre.length + s) (pre.length + j - (pre.length + s)) =
              matchFrom l rest s (j - s)
            have e : pre.length + j - (pre.length + s) = j - s := by omega
            rw [e]
            exact ih pre l s (j - s)
      · by_cases hb : l.getD (s + o) 0 = p
        · rw [matchFrom_lit_step l rest p s o hp hlen hb,
            matchFrom_lit_step (pre ++ l) rest p (pre.length + s) o hp hlen2 (by rw [hgd]; exact hb)]
          exact ih pre l s (o + 1)
        · rw [matchFrom_lit_fail l rest p s o hp hlen hb,
            matchFrom_lit_fail (pre ++ l) rest p (pre.length + s) o hp hlen2 (by rw [hgd]; exact hb)]

/-- Combined gap step: when the scan point is non-alphabetic and the gap
scan lands on `j`, the wildcard consumes the run and the loop resumes at
buffer cursor `j - s`. -/
theorem matchFrom_gap_found (buf rest : List Nat) (s o j : Nat)
    (hlen : s + o < buf.length) (hb : isAlphaChar (buf.getD (s + o) 0) = false)
    (hfa : findAlphaFrom buf (s + o + 1) = some j) :
    matchFrom buf (32 :: rest) s o = matchFrom buf rest s (j - s) := by
  rw [matchFrom_gap_step buf rest s o hlen hb, hfa]

end Gulf

namespace Gulf

/-- Core of the fuzzy-separator property: the inner loop accepts, at start
index `0`, any buffer that begins with `Gulf`, a non-empty run of
non-alphabetic bytes `a1 :: g1t`, `of`, another non-empty run `a2 :: g2t`,
and `Mexico`, whatever follows. -/
theorem fuzzy_match_core (a1 a2 : Nat) (g1t g2t suf : List Nat)
    (ha1 : isAlphaChar a1 = false) (ht1 : ∀ b ∈ g1t, isAlphaChar b = false)
    (ha2 : isAlphaChar a2 = false) (ht2 : ∀ b ∈ g2t, isAlphaChar b = false) :
    matchFrom
      (71 :: 117 :: 108 :: 102 :: a1 ::
        (g1t ++ (111 :: 102 :: a2 :: (g2t ++ (77 :: 101 :: 120 :: 105 :: 99 :: 111 :: suf)))))
      SEARCH_PATTERN_BYTES 0 0 = some true := by
  set M6 : List Nat := 77 :: 101 :: 120 :: 105 :: 99 :: 111 :: suf with hM6
  set Y : List Nat := 111 :: 102 :: a2 :: (g2t ++ M6) with hY
  set L : List Nat := 71 :: 117 :: 108 :: 102 :: a1 :: (g1t ++ Y) with hL
  have hLlen : L.length = 14 + g1t.length + g2t.length + suf.length := by
    rw [hL, hY, hM6]
    simp [List.length_append]
    omega
  have hdrop5 : L.drop 5 = g1t ++ Y := by rw [hL]; rfl
  have hP5 : L.getD (0 + (5 + g1t.length)) 0 = 111 := by
    rw [Nat.zero_add, ← getD_drop 5 L g1t.length, hdrop5]
    have h := getD_append_len g1t Y 0
    rw [Nat.add_zero] at h
    rw [h, hY]
    rfl
  have hP6 : L.getD (0 + (5 + g1t.length + 1)) 0 = 102 := by
    rw [Nat.zero_add, show 5 + g1t.length + 1 = 5 + (g1t.length + 1) from by omega,
      ← getD_drop 5 L (g1t.length + 1), hdrop5, getD_append_len g1t Y 1, hY]
    rfl
  have hP7 : isAlphaChar (L.getD (0 + (5 + g1t.length + 2)) 0) = false := by
    rw [Nat.zero_add, show 5 + g1t.length + 2 = 5 + (g1t.length + 2) from by omega,
      ← getD_drop 5 L (g1t.length + 2), hdrop5, getD_append_len g1t Y 2, hY]
    exact ha2
  have hfa1 : findAlphaFrom L 5 = some (5 + g1t.length) := by
    rw [findAlphaFrom, hdrop5, hY, firstAlphaIdx_append_nonalpha g1t 111 _ ht1 (by decide)]
    simp
  have hdrop8 : L.drop (8 + g1t.length) = g2t ++ M6 := by
    rw [show 8 + g1t.length = 5 + (3 + g1t.length) from by omega, ← List.drop_drop, hdrop5,
      show 3 + g1t.length = g1t.length + 3 from by omega, drop_append_len, hY]
    rfl
  have hfa2 : findAlphaFrom L (0 + (5 + g1t.length + 2) + 1) = some (8 + g1t.length + g2t.length) := by
    rw [show 0 + (5 + g1t.length + 2) + 1 = 8 + g1t.length from by omega,
      findAlphaFrom, hdrop8, hM6, firstAlphaIdx_append_nonalpha g2t 77 _ ht2 (by decide)]
    simp
  have hP8 : L.getD (0 + (8 + g1t.length + g2t.length)) 0 = 77 := by
    rw [Nat.zero_add,
      show 8 + g1t.length + g2t.length = (8 + g1t.length) + (g2t.length + 0) from by omega,
      ← getD_drop (8 + g1t.length) L (g2t.length + 0), hdrop8, getD_append_len g2t M6 0, hM6]
    rfl
  have hP9 : L.getD (0 + (8 + g1t.length + g2t.length + 1)) 0 = 101 := by
    rw [Nat.zero_add,
      show 8 + g1t.length + g2t.length + 1 = (8 + g1t.length) + (g2t.length + 1) from by omega,
      ← getD_drop (8 + g1t.length) L (g2t.length + 1), hdrop8, getD_append_len g2t M6 1, hM6]
    rfl
  have hP10 : L.getD (0 + (8 + g1t.length + g2t.length + 2)) 0 = 120 := by
    rw [Nat.zero_add,
      show 8 + g1t.length + g2t.length + 2 = (8 + g1t.length) + (g2t.length + 2) from by omega,
      ← getD_drop (8 + g1t.length) L (g2t.length + 2), hdrop8, getD_append_len g2t M6 2, hM6]
    rfl
  have hP11 : L.getD (0 + (8 + g1t.length + g2t.length + 3)) 0 = 105 := by
    rw [Nat.zero_add,
      show 8 + g1t.length + g2t.length + 3 = (8 + g1t.length) + (g2t.length + 3) from by omega,
      ← getD_drop (8 + g1t.length) L (g2t.length + 3), hdrop8, getD_append_len g2t M6 3, hM6]
    rfl
  have hP12 : L.getD (0 + (8 + g1t.length + g2t.length + 4)) 0 = 99 := by
    rw [Nat.zero_add,
      show 8 + g1t.length + g2t.length + 4 = (8 + g1t.length) + (g2t.length + 4) from by omega,
      ← getD_drop (8 + g1t.length) L (g2t.length + 4), hdrop8, getD_append_len g2t M6 4, hM6]
    rfl
  have hP13 : L.getD (0 + (8 + g1t.length + g2t.length + 5)) 0 = 111 := by
    rw [Nat.zero_add,
      show 8 + g1t.length + g2t.length + 5 = (8 + g1t.length) + (g2t.length + 5) from by omega,
      ← getD_drop (8 + g1t.length) L (g2t.length + 5), hdrop8, getD_append_len g2t M6 5, hM6]
    rfl
  rw [SEARCH_PATTERN_BYTES]
  calc matchFrom L [71, 117, 108, 102, 32, 111, 102, 32, 77, 101, 120, 105, 99, 111] 0 0
      = matchFrom L [117, 108, 102, 32, 111, 102, 32, 77, 101, 120, 105, 99, 111] 0 (0 + 1) :=
        matchFrom_lit_step L _ 71 0 0 (by decide) (by omega) rfl
    _ = matchFrom L [108, 102, 32, 111, 102, 32, 77, 101, 120, 105, 99, 111] 0 (0 + 1 + 1) :=
        matchFrom_lit_step L _ 117 0 (0 + 1) (by decide) (by omega) rfl
    _ = matchFrom L [102, 32, 111, 102, 32, 77, 101, 120, 105, 99, 111] 0 (0 + 1 + 1 + 1) :=
        matchFrom_lit_step L _ 108 0 (0 + 1 + 1) (by decide) (by omega) rfl
    _ = matchFrom L [32, 111, 102, 32, 77, 101, 120, 105, 99, 111] 0 (0 + 1 + 1 + 1 + 1) :=
        matchFrom_lit_step L _ 102 0 (0 + 1 + 1 + 1) (by decide) (by omega) rfl
    _ = matchFrom L [111, 102, 32, 77, 101, 120, 105, 99, 111] 0 (5 + g1t.length - 0) :=
        matchFrom_gap_found L _ 0 (0 + 1 + 1 + 1 + 1) (5 + g1t.length) (by omega) ha1 hfa1
    _ = matchFrom L [102, 32, 77, 101, 120, 105, 99, 111] 0 (5 + g1t.length + 1) :=
        matchFrom_lit_step L _ 111 0 (5 + g1t.length - 0) (by decide) (by omega) hP5
    _ = matchFrom L [32, 77, 101, 120, 105, 99, 111] 0 (5 + g1t.length + 2) :=
        matchFrom_lit_step L _ 102 0 (5 + g1t.length + 1) (by decide) (by omega) hP6
    _ = matchFrom L [77, 101, 120, 105, 99, 111] 0 (8 + g1t.length + g2t.length - 0) :=
        matchFrom_gap_found L _ 0 (5 + g1t.length + 2) (8 + g1t.length + g2t.length)
          (by omega) hP7 hfa2
    _ = matchFrom L [101, 120, 105, 99, 111] 0 (8 + g1t.length + g2t.length + 1) :=
        matchFrom_lit_step L _ 77 0 (8 + g1t.length + g2t.length - 0) (by decide) (by omega) hP8
    _ = matchFrom L [120, 105, 99, 111] 0 (8 + g1t.length + g2t.length + 2) :=
        matchFrom_lit_step L _ 101 0 (8 + g1t.length + g2t.length + 1) (by decide) (by omega) hP9
    _ = matchFrom L [105, 99, 111] 0 (8 + g1t.length + g2t.length + 3) :=
        matchFrom_lit_step L _ 120 0 (8 + g1t.length + g2t.length + 2) (by decide) (by omega) hP10
    _ = matchFrom L [99, 111] 0 (8 + g1t.length + g2t.length + 4) :=
        matchFrom_lit_step L _ 105 0 (8 + g1t.length + g2t.length + 3) (by decide) (by omega) hP11
    _ = matchFrom L [111] 0 (8 + g1t.length + g2t.length + 5) :=
        matchFrom_lit_step L _ 99 0 (8 + g1t.length + g2t.length + 4) (by decide) (by omega) hP12
    _ = matchFrom L [] 0 (8 + g1t.length + g2t.length + 6) :=
        matchFrom_lit_step L _ 111 0 (8 + g1t.length + g2t.length + 5) (by decide) (by omega) hP13
    _ = some true := rfl

end Gulf

namespace Gulf

/-! ### Claim theorems -/

/-- C1: the claim asserts that the patch operation always terminates and
that a candidate whose wildcard-gap run would run past the buffer end fails
gracefully with no out-of-bounds access.  The code does the opposite: on
the buffer `"Gulf "` the gap scan runs past the buffer end (reading
`undefined`, which is not alphabetic) and never terminates — the inner
loop diverges (`none`) and the whole patch operation hangs at candidate 0
with the buffer unmodified (divergence flag `true`). -/
theorem c1_wildcard_overrun_hangs :
    matchFrom [71, 117, 108, 102, 32] SEARCH_PATTERN_BYTES 0 0 = none ∧
    patchLabelBytesIfNeeded [71, 117, 108, 102, 32] = ([71, 117, 108, 102, 32], true) := by
  decide

/-- C2 (counterexample): a buffer containing a fuzzy occurrence of the
phrase (with non-empty non-alphabetic separator runs `[1]` and `[2]`) at
index 17 — inside a parenthetical — whose target token is NOT replaced:
patching the match at index 0 erases the parenthetical, so by the time the
scan reaches index 17 the occurrence is gone and its token positions hold
spaces, not the replacement word. -/
theorem c2_erased_occurrence_not_replaced :
    matchFrom overlapParenFuzzyBuffer SEARCH_PATTERN_BYTES 17 0 = some true ∧
    ((patchLabelBytesIfNeeded overlapParenFuzzyBuffer).fst.drop 25).take 6 =
      [32, 32, 32, 32, 32, 32] ∧
    ((patchLabelBytesIfNeeded overlapParenFuzzyBuffer).fst.drop 25).take 6 ≠
      REPLACEMENT_BYTES := by
  decide

/-- C2 (amended): the matcher declares a match at the start of every
occurrence of the phrase in which each single space separator is replaced
by a run of one or more arbitrary non-alphabetic bytes — a pattern space
matches any such non-empty run, every other pattern byte must equal the
buffer byte exactly.  (The replacement of the token is only guaranteed
when earlier patch actions have not overwritten the occurrence.) -/
theorem c2_fuzzy_separators_match (pre g1 g2 suf : List Nat)
    (h1 : g1 ≠ []) (h2 : g2 ≠ [])
    (ha1 : ∀ b ∈ g1, isAlphaChar b = false) (ha2 : ∀ b ∈ g2, isAlphaChar b = false) :
    matchFrom
      (pre ++ [71, 117, 108, 102] ++ g1 ++ [111, 102] ++ g2 ++
        [77, 101, 120, 105, 99, 111] ++ suf)
      SEARCH_PATTERN_BYTES pre.length 0 = some true := by
  obtain ⟨a1, g1t, rfl⟩ := List.exists_cons_of_ne_nil h1
  obtain ⟨a2, g2t, rfl⟩ := List.exists_cons_of_ne_nil h2
  have hs := matchFrom_append_shift SEARCH_PATTERN_BYTES pre
    ([71, 117, 108, 102] ++ ((a1 :: g1t) ++ ([111, 102] ++ ((a2 :: g2t) ++
      ([77, 101, 120, 105, 99, 111] ++ suf))))) 0 0
  rw [Nat.add_zero] at hs
  simp only [List.append_assoc]
  rw [hs]
  exact fuzzy_match_core a1 a2 g1t g2t suf (ha1 a1 (by simp))
    (fun b hb => ha1 b (by simp [hb])) (ha2 a2 (by simp)) (fun b hb => ha2 b (by simp [hb]))

/-- Witness for C2's amended theorem at `"Gulf\x01of\nMexico"`. -/
theorem c2_fuzzy_separators_match_witness :
    matchFrom [71, 117, 108, 102, 1, 111, 102, 10, 77, 101, 120, 105, 99, 111]
      SEARCH_PATTERN_BYTES 0 0 = some true :=
  c2_fuzzy_separators_match [] [1] [10] [] (by decide) (by decide) (by decide) (by decide)

/-- C3: a buffer with an alphabetic byte where a separator should stand
does not match: in general, a candidate that has consumed `Gulf` and then
faces an alphabetic byte at the wildcard position fails (at least one
non-alphabetic byte is required); and concretely `"GulfXofXMexico"`
matches at no start index, so the patch leaves it unchanged. -/
theorem c3_alpha_separator_no_match :
    (∀ (pre rest : List Nat) (c : Nat), isAlphaChar c = true →
      matchFrom (pre ++ [71, 117, 108, 102] ++ c :: rest) SEARCH_PATTERN_BYTES
        pre.length 0 = some false) ∧
    (∀ i, i < gulfXofXMexicoBytes.length →
      matchFrom gulfXofXMexicoBytes SEARCH_PATTERN_BYTES i 0 = some false) ∧
    patchLabelBytesIfNeeded gulfXofXMexicoBytes = (gulfXofXMexicoBytes, false) := by
  refine ⟨?_, by decide, by decide⟩
  intro pre rest c hc
  have hs := matchFrom_append_shift SEARCH_PATTERN_BYTES pre
    ([71, 117, 108, 102] ++ c :: rest) 0 0
  rw [Nat.add_zero] at hs
  simp only [List.append_assoc]
  rw [hs, SEARCH_PATTERN_BYTES]
  have hlen : ([71, 117, 108, 102] ++ c :: rest).length = 5 + rest.length := by simp; omega
  calc matchFrom ([71, 117, 108, 102] ++ c :: rest)
        [71, 117, 108, 102, 32, 111, 102, 32, 77, 101, 120, 105, 99, 111] 0 0
      = matchFrom ([71, 117, 108, 102] ++ c :: rest)
        [117, 108, 102, 32, 111, 102, 32, 77, 101, 120, 105, 99, 111] 0 (0 + 1) :=
        matchFrom_lit_step _ _ 71 0 0 (by decide) (by omega) (by rfl)
    _ = matchFrom ([71, 117, 108, 102] ++ c :: rest)
        [108, 102, 32, 111, 102, 32, 77, 101, 120, 105, 99, 111] 0 (0 + 1 + 1) :=
        matchFrom_lit_step _ _ 117 0 (0 + 1) (by decide) (by omega) (by rfl)
    _ = matchFrom ([71, 117, 108, 102] ++ c :: rest)
        [102, 32, 111, 102, 32, 77, 101, 120, 105, 99, 111] 0 (0 + 1 + 1 + 1) :=
        matchFrom_lit_step _ _ 108 0 (0 + 1 + 1) (by decide) (by omega) (by rfl)
    _ = matchFrom ([71, 117, 108, 102] ++ c :: rest)
        [32, 111, 102, 32, 77, 101, 120, 105, 99, 111] 0 (0 + 1 + 1 + 1 + 1) :=
        matchFrom_lit_step _ _ 102 0 (0 + 1 + 1 + 1) (by decide) (by omega) (by rfl)
    _ = some false :=
        matchFrom_gap_alpha _ _ 0 (0 + 1 + 1 + 1 + 1) (by omega) hc

/-- Witness for C3 at `"GulfXofXMexico"`, whose separator byte `X` (88) is
alphabetic. -/
theorem c3_alpha_separator_no_match_witness :
    isAlphaChar 88 = true ∧
    matchFrom [71, 117, 108, 102, 88, 111, 102, 88, 77, 101, 120, 105, 99, 111]
      SEARCH_PATTERN_BYTES 0 0 = some false :=
  ⟨by decide,
    c3_alpha_separator_no_match.1 [] [111, 102, 88, 77, 101, 120, 105, 99, 111] 88 (by decide)⟩

/-- C4 (counterexample): patch is not idempotent.  On
`"Gulf(x)of Mexico Gulf of Mexico"` the first application patches the match
at index 17 and erases `(x)`, which creates a brand-new fuzzy match at
index 0; the second application patches that new match, changing bytes. -/
theorem c4_second_patch_changes_bytes :
    (patchLabelBytesIfNeeded ((patchLabelBytesIfNeeded idempotenceBreakBuffer).fst)).fst ≠
      (patchLabelBytesIfNeeded idempotenceBreakBuffer).fst := by
  decide

/-- C4 (amended): applying patch a second time to the buffer produced by a
first application changes no byte, provided the patched buffer contains no
fuzzy match at any start index (the first application's parenthetical
erasure can otherwise create a new match). -/
theorem c4_idempotent_when_no_residual_match (buf patched : List Nat)
    (_hfirst : patchLabelBytesIfNeeded buf = (patched, false))
    (h2 : ∀ i, i < patched.length → matchFrom patched SEARCH_PATTERN_BYTES i 0 = some false) :
    patchLabelBytesIfNeeded patched = (patched, false) := by
  rw [patchLabelBytesIfNeeded]
  exact patchLoopAux_noMatchTail patched.length patched 0 (fun k hk _ => h2 k hk)

/-- Witness for C4's amended theorem: `"Gulf of Mexico"` patches to
`"Gulf of Sweden"`, which a second application leaves unchanged. -/
theorem c4_idempotent_when_no_residual_match_witness :
    patchLabelBytesIfNeeded gulfOfMexicoBytes = (gulfOfSwedenBytes, false) ∧
    patchLabelBytesIfNeeded gulfOfSwedenBytes = (gulfOfSwedenBytes, false) :=
  ⟨by decide,
    c4_idempotent_when_no_residual_match gulfOfMexicoBytes gulfOfSwedenBytes
      (by decide) (by decide)⟩

/-- C7: a buffer with no fuzzy match at any candidate start index is left
byte-for-byte unchanged, and the operation ends normally (no divergence) —
absence of a match is a normal negative result. -/
theorem c7_no_match_buffer_unchanged (buf : List Nat)
    (h : ∀ i, i < buf.length → matchFrom buf SEARCH_PATTERN_BYTES i 0 = some false) :
    patchLabelBytesIfNeeded buf = (buf, false) := by
  rw [patchLabelBytesIfNeeded]
  exact patchLoopAux_noMatchTail buf.length buf 0 (fun k hk _ => h k hk)

/-- Witness for C7 at the phrase-free buffer `"hi!"`. -/
theorem c7_no_match_buffer_unchanged_witness :
    (∀ i, i < ([104, 105, 33] : List Nat).length →
      matchFrom [104, 105, 33] SEARCH_PATTERN_BYTES i 0 = some false) ∧
    patchLabelBytesIfNeeded [104, 105, 33] = ([104, 105, 33], false) :=
  ⟨by decide, c7_no_match_buffer_unchanged [104, 105, 33] (by decide)⟩

/-- C10: whenever the inner loop declares a match at start index `i`, the
buffer-wide anchor search `indexOf('M', i)` necessarily finds an index
(never the `-1` sentinel), and the position found carries the matched
token itself: the six bytes of `"Mexico"` sit there, wholly inside the
buffer, so the replacement always lands on the matched token. -/
theorem c10_anchor_always_found_on_token (buf : List Nat) (i : Nat)
    (h : matchFrom buf SEARCH_PATTERN_BYTES i 0 = some true) :
    ∃ m, indexOfFrom buf CHAR_CODE_CAPITAL_M i = some m ∧ i ≤ m ∧
      m + REPLACEMENT_BYTES.length ≤ buf.length ∧
      buf.getD m 0 = 77 ∧ buf.getD (m + 1) 0 = 101 ∧ buf.getD (m + 2) 0 = 120 ∧
      buf.getD (m + 3) 0 = 105 ∧ buf.getD (m + 4) 0 = 99 ∧ buf.getD (m + 5) 0 = 111 := by
  obtain ⟨v, h1, h2, h3, h4, h5, h6, h7, h8, h9⟩ := anchor_of_match buf i h
  exact ⟨v, h1, h2, by simpa [REPLACEMENT_BYTES] using h3, h4, h5, h6, h7, h8, h9⟩

/-- Witness for C10 at `"Gulf,of;Mexico"`. -/
theorem c10_anchor_always_found_on_token_witness :
    matchFrom [71, 117, 108, 102, 44, 111, 102, 59, 77, 101, 120, 105, 99, 111]
      SEARCH_PATTERN_BYTES 0 0 = some true ∧
    ∃ m, indexOfFrom [71, 117, 108, 102, 44, 111, 102, 59, 77, 101, 120, 105, 99, 111]
        CHAR_CODE_CAPITAL_M 0 = some m ∧ 0 ≤ m ∧
      m + REPLACEMENT_BYTES.length ≤
        ([71, 117, 108, 102, 44, 111, 102, 59, 77, 101, 120, 105, 99, 111] : List Nat).length ∧
      ([71, 117, 108, 102, 44, 111, 102, 59, 77, 101, 120, 105, 99, 111] : List Nat).getD m 0 = 77 ∧
      ([71, 117, 108, 102, 44, 111, 102, 59, 77, 101, 120, 105, 99, 111] : List Nat).getD (m + 1) 0 = 101 ∧
      ([71, 117, 108, 102, 44, 111, 102, 59, 77, 101, 120, 105, 99, 111] : List Nat).getD (m + 2) 0 = 120 ∧
      ([71, 117, 108, 102, 44, 111, 102, 59, 77, 101, 120, 105, 99, 111] : List Nat).getD (m + 3) 0 = 105 ∧
      ([71, 117, 108, 102, 44, 111, 102, 59, 77, 101, 120, 105, 99, 111] : List Nat).getD (m + 4) 0 = 99 ∧
      ([71, 117, 108, 102, 44, 111, 102, 59, 77, 101, 120, 105, 99, 111] : List Nat).getD (m + 5) 0 = 111 :=
  ⟨by decide,
    c10_anchor_always_found_on_token
      [71, 117, 108, 102, 44, 111, 102, 59, 77, 101, 120, 105, 99, 111] 0 (by decide)⟩

end Gulf

namespace Gulf

/-- C5: the parenthetical to erase is the first `'('` in the entire buffer
(scanned from index 0, not from the match) whose next byte is alphabetic;
every byte from it up to a position with no `')'` strictly in between is
overwritten with the space byte (hence through the first `')'` inclusive,
and through buffer end when no `')'` follows); when no qualifying `'('`
exists the erasure step is skipped entirely; and concretely
`"Gulf of Mexico (Gulf of America)"` patches to `"Gulf of Sweden"`
followed by 18 spaces. -/
theorem c5_parenthetical_scan_and_erasure :
    (∀ (buf : List Nat) (p : Nat), findParenthStart buf = some p →
      buf.getD p 0 = CHAR_CODE_PARENTH ∧ isAlphaCharAt (buf.get? (p + 1)) = true ∧
      ∀ k, k < p →
        ¬(buf.getD k 0 = CHAR_CODE_PARENTH ∧ isAlphaCharAt (buf.get? (k + 1)) = true)) ∧
    (∀ buf : List Nat, findParenthStart buf = none →
      ∀ k, k < buf.length →
        ¬(buf.getD k 0 = CHAR_CODE_PARENTH ∧ isAlphaCharAt (buf.get? (k + 1)) = true)) ∧
    (∀ (buf : List Nat) (p k : Nat), p ≤ k → k < buf.length →
      (∀ j, p ≤ j → j < k → buf.getD j 0 ≠ CHAR_CODE_CLOSE_PARENTH) →
      (eraseParenth buf p).getD k 0 = CHAR_CODE_SPACE) ∧
    (∀ (buf : List Nat) (i : Nat), findParenthStart buf = none →
      applyPatch buf i =
        writeBytes buf
          (match indexOfFrom buf CHAR_CODE_CAPITAL_M i with
            | some m => (m : Int)
            | none => -1) REPLACEMENT_BYTES) ∧
    patchLabelBytesIfNeeded gulfOfAmericaBuffer =
      (gulfOfSwedenBytes ++ List.replicate 18 32, false) := by
  refine ⟨?_, ?_, ?_, ?_, by decide⟩
  · intro buf p hp
    obtain ⟨-, h2, h3, h4⟩ := findParenthStart_some buf p hp
    exact ⟨h2, h3, h4⟩
  · intro buf hn
    exact findParenthStart_none buf hn
  · intro buf p k h1 h2 h3
    exact eraseParenth_getD buf p k h1 h2 h3
  · intro buf i hn
    rw [applyPatch, hn]

/-- Witness for C5 at the buffer `"(a)"`, whose qualifying parenthesis
opens at index 0. -/
theorem c5_parenthetical_scan_and_erasure_witness :
    findParenthStart [40, 97, 41] = some 0 ∧
    ([40, 97, 41] : List Nat).getD 0 0 = CHAR_CODE_PARENTH :=
  ⟨by decide, (c5_parenthetical_scan_and_erasure.1 [40, 97, 41] 0 (by decide)).1⟩

/-- C6: once a match is declared at `i`, the replacement position is the
first occurrence of the anchor byte `'M'` at an index `≥ i` — a buffer-wide
search not constrained to the matched span — and exactly the
`REPLACEMENT_BYTES.length` bytes of `"Sweden"` are written there,
one-to-one, in the patched buffer. -/
theorem c6_anchor_search_and_replacement (buf : List Nat) (i m : Nat)
    (h : matchFrom buf SEARCH_PATTERN_BYTES i 0 = some true)
    (hidx : indexOfFrom buf CHAR_CODE_CAPITAL_M i = some m) :
    i ≤ m ∧ buf.getD m 0 = CHAR_CODE_CAPITAL_M ∧
      (∀ k, k < m → i ≤ k → buf.getD k 0 ≠ CHAR_CODE_CAPITAL_M) ∧
      m + REPLACEMENT_BYTES.length ≤ buf.length ∧
      (∀ j, j < REPLACEMENT_BYTES.length →
        (applyPatch buf i).getD (m + j) 0 = REPLACEMENT_BYTES.getD j 0) := by
  obtain ⟨h1, -, h2, h4⟩ := indexOfFrom_some buf CHAR_CODE_CAPITAL_M i m hidx
  obtain ⟨v, hv1, -, hv3, -, -, -, -, -, -⟩ := anchor_of_match buf i h
  rw [hidx] at hv1
  have hmv : m = v := Option.some.inj hv1
  subst hmv
  have hm6 : m + REPLACEMENT_BYTES.length ≤ buf.length := by
    simp only [REPLACEMENT_BYTES, List.length_cons, List.length_nil]
    omega
  refine ⟨h1, h2, fun k hk1 hk2 => h4 k hk2 hk1, hm6, ?_⟩
  intro j hj
  simp only [applyPatch, hidx]
  cases hfp : findParenthStart buf with
  | none =>
    apply writeBytes_getD_in REPLACEMENT_BYTES buf m j hj
    exact hm6
  | some p =>
    apply writeBytes_getD_in REPLACEMENT_BYTES (eraseParenth buf p) m j hj
    rw [eraseParenth_length]
    exact hm6

/-- Witness for C6 at `"Gulf of Mexico"`, whose anchor `'M'` sits at
index 8 and receives the first replacement byte. -/
theorem c6_anchor_search_and_replacement_witness :
    matchFrom gulfOfMexicoBytes SEARCH_PATTERN_BYTES 0 0 = some true ∧
    indexOfFrom gulfOfMexicoBytes CHAR_CODE_CAPITAL_M 0 = some 8 ∧
    (applyPatch gulfOfMexicoBytes 0).getD 8 0 = REPLACEMENT_BYTES.getD 0 0 :=
  ⟨by decide, by decide,
    (c6_anchor_search_and_replacement gulfOfMexicoBytes 0 8 (by decide)
      (by decide)).2.2.2.2 0 (by decide)⟩

/-- C8 (counterexample): a buffer with two non-overlapping fuzzy matches —
at 0 (span 0-13) and at 17 — of which a single invocation patches only the
first: its parenthetical erasure blanks the second occurrence before the
scan reaches it, so the second token positions end as spaces, not the
replacement word. -/
theorem c8_erasure_destroys_second_match :
    matchFrom overlapParenBuffer SEARCH_PATTERN_BYTES 0 0 = some true ∧
    matchFrom overlapParenBuffer SEARCH_PATTERN_BYTES 17 0 = some true ∧
    ((patchLabelBytesIfNeeded overlapParenBuffer).fst.drop 25).take 6 =
      [32, 32, 32, 32, 32, 32] ∧
    ((patchLabelBytesIfNeeded overlapParenBuffer).fst.drop 25).take 6 ≠
      REPLACEMENT_BYTES := by
  decide

/-- C8 (amended): the scan resumes candidate lookup at the next byte index
after each successful match and repeats until the buffer is exhausted, so
when matches are declared exactly at `j1` (on the original buffer) and at
`j2` (on the buffer patched at `j1`) — in particular when patching the
first occurrence leaves the second occurrence's bytes intact — one
invocation patches both: the result is the buffer patched at `j1` and
then at `j2`. -/
theorem c8_scan_continues_two_matches_patched (buf : List Nat) (j1 j2 : Nat)
    (hj : j1 < j2) (hlen : j2 < buf.length)
    (hm1 : matchFrom buf SEARCH_PATTERN_BYTES j1 0 = some true)
    (hpre : ∀ k, k < j1 → matchFrom buf SEARCH_PATTERN_BYTES k 0 = some false)
    (hm2 : matchFrom (applyPatch buf j1) SEARCH_PATTERN_BYTES j2 0 = some true)
    (hmid : ∀ k, k < j2 → j1 < k →
      matchFrom (applyPatch buf j1) SEARCH_PATTERN_BYTES k 0 = some false)
    (hpost : ∀ k, k < buf.length → j2 < k →
      matchFrom (applyPatch (applyPatch buf j1) j2) SEARCH_PATTERN_BYTES k 0 = some false) :
    patchLabelBytesIfNeeded buf = (applyPatch (applyPatch buf j1) j2, false) := by
  rw [patchLabelBytesIfNeeded]
  have hstep1 := patchLoopAux_skip j1 buf.length buf 0 (by omega) (by omega)
    (fun k hk1 _ => hpre k (by omega))
  rw [Nat.zero_add] at hstep1
  rw [hstep1]
  have hf1 : buf.length - j1 = (buf.length - j1 - 1) + 1 := by omega
  rw [hf1, patchLoopAux_step_true (buf.length - j1 - 1) buf j1 (by omega) hm1]
  set buf1 := applyPatch buf j1 with hbuf1
  have hlen1 : buf1.length = buf.length := applyPatch_length buf j1
  have hstep2 := patchLoopAux_skip (j2 - (j1 + 1)) (buf.length - j1 - 1) buf1 (j1 + 1)
    (by omega) (by omega) (fun k hk1 hk2 => hmid k (by omega) (by omega))
  rw [hstep2]
  have e2 : j1 + 1 + (j2 - (j1 + 1)) = j2 := by omega
  rw [e2, hlen1]
  have hf2 : buf.length - j2 = (buf.length - j2 - 1) + 1 := by omega
  rw [hf2, patchLoopAux_step_true (buf.length - j2 - 1) buf1 j2 (by omega) hm2]
  apply patchLoopAux_noMatchTail
  intro k hk1 hk2
  rw [applyPatch_length, hlen1] at hk1
  exact hpost k hk1 (by omega)

/-- Witness for C8's amended theorem at `"Gulf of Mexico,Gulf of Mexico"`
(matches at 0 and 15, no parenthetical): both occurrences end patched. -/
theorem c8_scan_continues_two_matches_patched_witness :
    matchFrom twoMatchBuffer SEARCH_PATTERN_BYTES 0 0 = some true ∧
    matchFrom (applyPatch twoMatchBuffer 0) SEARCH_PATTERN_BYTES 15 0 = some true ∧
    patchLabelBytesIfNeeded twoMatchBuffer =
      (applyPatch (applyPatch twoMatchBuffer 0) 15, false) :=
  ⟨by decide, by decide,
    c8_scan_continues_two_matches_patched twoMatchBuffer 0 15 (by decide) (by decide)
      (by decide) (by decide) (by decide) (by decide) (by decide)⟩

/-- C9: the patch operation never changes the buffer's length (also at a
divergence hang point), and under a declared match every write the patch
application attempts — the erasure writes and the six replacement writes —
targets an index inside the original buffer bounds. -/
theorem c9_length_preserved_writes_in_bounds :
    (∀ buf : List Nat, ((patchLabelBytesIfNeeded buf).fst).length = buf.length) ∧
    (∀ (buf : List Nat) (i : Nat), matchFrom buf SEARCH_PATTERN_BYTES i 0 = some true →
      ∀ k ∈ patchWrites buf i, 0 ≤ k ∧ k < (buf.length : Int)) := by
  constructor
  · intro buf
    rw [patchLabelBytesIfNeeded]
    exact patchLoopAux_fst_length buf.length buf 0
  · intro buf i h k hk
    obtain ⟨v, hv1, -, hv3, -, -, -, -, -, -⟩ := anchor_of_match buf i h
    rw [patchWrites, hv1] at hk
    cases hfp : findParenthStart buf with
    | none =>
      rw [hfp] at hk
      rcases List.mem_append.mp hk with hk1 | hk1
      · exact absurd (show k ∈ ([] : List Int) from hk1) (List.not_mem_nil k)
      · obtain ⟨j, hjr, hje⟩ := List.mem_map.mp hk1
        rw [List.mem_range] at hjr
        have hj6 : j < 6 := by simpa [REPLACEMENT_BYTES] using hjr
        have hje2 : (v : Int) + (j : Int) = k := hje
        constructor <;> omega
    | some p =>
      rw [hfp] at hk
      rcases List.mem_append.mp hk with hk1 | hk1
      · have hk2 : k ∈ (List.range (eraseUpToCloseCount (buf.drop p))).map
            (fun j => ((p + j : Nat) : Int)) := hk1
        obtain ⟨j, hjr, hje⟩ := List.mem_map.mp hk2
        rw [List.mem_range] at hjr
        have hcle := eraseUpToCloseCount_le (buf.drop p)
        rw [List.length_drop] at hcle
        have hje2 : ((p + j : Nat) : Int) = k := hje
        constructor <;> omega
      · obtain ⟨j, hjr, hje⟩ := List.mem_map.mp hk1
        rw [List.mem_range] at hjr
        have hj6 : j < 6 := by simpa [REPLACEMENT_BYTES] using hjr
        have hje2 : (v : Int) + (j : Int) = k := hje
        constructor <;> omega

/-- Witness for C9's bounds statement at `"Gulf of Mexico"`. -/
theorem c9_length_preserved_writes_in_bounds_witness :
    matchFrom gulfOfMexicoBytes SEARCH_PATTERN_BYTES 0 0 = some true ∧
    ∀ k ∈ patchWrites gulfOfMexicoBytes 0, 0 ≤ k ∧ k < (gulfOfMexicoBytes.length : Int) :=
  ⟨by decide, c9_length_preserved_writes_in_bounds.2 gulfOfMexicoBytes 0 (by decide)⟩

end Gulf
